import Mathlib

/-!
# Verification of the jaml 2D vector viewer core

Shallow embedding of the coordinate/camera model, grid-step planner, label
generator, vector collection and preset registry of `src/viewer_win32.c`,
and of the vector-math helpers of `src/vector2.h`.

Modelling conventions:
* C `float`/`double` arithmetic in the viewer is modelled by exact rational
  arithmetic (`ℚ`); the claims about these functions are stated up to the
  floating-point rounding the spec allows, and over `ℚ` the algebra is exact.
* The vector-math header works with `sqrtf`, so `vec2` is modelled over `ℝ`
  with `Real.sqrt`.
* A C cast from a floating value to an integer type (`(LONG)x`, or the
  implicit conversion in a call of `abs`) truncates toward zero; `ratTrunc`
  (on `ℚ`) and `realTrunc` (on `ℝ`) model that cast.
* `size_t` values are modelled as `ℕ`; where the width of `size_t` matters
  (the 64-bit bound on label indices) it appears as an explicit hypothesis.
-/

/-- Truncation toward zero of a rational, the semantics of a C cast from a
floating value to an integer type (`(LONG)x`). -/
def ratTrunc (q : ℚ) : ℤ := if 0 ≤ q then ⌊q⌋ else ⌈q⌉

/-- `nice_step_for_scale` from `viewer_win32.c` (lines 53-60).  The C code
computes `k = floor(log10(target))`; over exact arithmetic that is
`Int.log 10 target` (proved against `Real.logb` in
`nice_step_for_scale_spec`), which keeps the definition executable. -/
def nice_step_for_scale (target : ℚ) : ℚ :=
  if target ≤ 0 then 1
  else
    let k := Int.log 10 target
    let base : ℚ := 10 ^ k
    let frac := target / base
    let m : ℚ := if frac < 3/2 then 1 else if frac < 3 then 2
      else if frac < 7 then 5 else 10
    m * base

/-- The camera state of the viewer: `g_cam` in `viewer_win32.c`.
`scale` is pixels per world unit, `panX`/`panY` are pixel offsets. -/
structure Camera where
  scale : ℚ
  panX : ℚ
  panY : ℚ
deriving DecidableEq, Repr

/-- `world_to_screen` from `viewer_win32.c` (lines 40-45): maps a world point
to a screen `POINT` (integral pixel coordinates, truncated by the `(LONG)`
casts).  `W`, `H` are the client dimensions `g_clientW`, `g_clientH`. -/
def world_to_screen (cam : Camera) (W H : ℤ) (x y : ℚ) : ℤ × ℤ :=
  (ratTrunc ((W : ℚ) * (1/2) + cam.panX + x * cam.scale),
   ratTrunc ((H : ℚ) * (1/2) + cam.panY - y * cam.scale))

/-- `screen_to_world` from `viewer_win32.c` (lines 47-51): maps integral
screen coordinates to a world point. -/
def screen_to_world (cam : Camera) (W H : ℤ) (sx sy : ℤ) : ℚ × ℚ :=
  (((sx : ℚ) - (W : ℚ) * (1/2) - cam.panX) / cam.scale,
   ((H : ℚ) * (1/2) + cam.panY - (sy : ℚ)) / cam.scale)

/-- `clampf` from `viewer_win32.c` (lines 36-38). -/
def clampf (x a b : ℚ) : ℚ := if x < a then a else if x > b then b else x

/-- `handle_zoom_at_cursor` from `viewer_win32.c` (lines 354-361): remembers
the world point under the cursor, multiplies the scale by `1.1` (wheel up)
or `1/1.1` (wheel down), clamps it to `[10, 2000]`, re-projects the
remembered world point with the new scale, and adds the (integral) pixel
difference to the pan offsets. -/
def handle_zoom_at_cursor (cam : Camera) (W H : ℤ) (wheelDelta mx my : ℤ) :
    Camera :=
  let w0 := screen_to_world cam W H mx my
  let zoomFactor : ℚ := if 0 < wheelDelta then 11/10 else 10/11
  let scale2 := clampf (cam.scale * zoomFactor) 10 2000
  let s1 := world_to_screen ⟨scale2, cam.panX, cam.panY⟩ W H w0.1 w0.2
  ⟨scale2, cam.panX + ((mx - s1.1 : ℤ) : ℚ), cam.panY + ((my - s1.2 : ℤ) : ℚ)⟩

/-- The digit-collecting loop of `make_label` (`viewer_win32.c` lines 72-76):
`while (x > 0 && n < sizeof(tmp))` with `sizeof(tmp) = 32`.  The digits are
produced least-significant first; `fuel` is the remaining room in `tmp`,
i.e. `32 - n`. -/
def labelDigitsAux : Nat → Nat → List Char
  | _, 0 => []
  | x, fuel + 1 =>
    if x = 0 then []
    else Char.ofNat ('a'.toNat + (x - 1) % 26) :: labelDigitsAux ((x - 1) / 26) fuel

/-- The contents of `tmp` after the loop of `make_label`, least-significant
digit first. -/
def labelDigits (x : Nat) : List Char := labelDigitsAux x 32

/-- The same loop with no bound on the digit count: the full bijective
base-26 representation of `x`, least-significant digit first. -/
def fullDigits (x : Nat) : List Char :=
  if h : x = 0 then []
  else Char.ofNat ('a'.toNat + (x - 1) % 26) :: fullDigits ((x - 1) / 26)
termination_by x
decreasing_by
  have := Nat.div_le_self (x - 1) 26
  omega

/-- The characters `make_label` (`viewer_win32.c` lines 66-80) writes into a
buffer of size `outsz`: the `min n (outsz-1)` most significant digits, in
most-significant-first order (`out[i] = tmp[n-1-i]`).  For `outsz = 0` the
function returns without writing anything, modelled as the empty string. -/
def make_label_chars (idx outsz : Nat) : List Char :=
  if outsz = 0 then []
  else
    let tmp := labelDigits (idx + 1)
    (tmp.reverse).take (min tmp.length (outsz - 1))

/-- `make_label` as a string. -/
def make_label (idx outsz : Nat) : String := String.mk (make_label_chars idx outsz)

/-- The full (untruncated) bijective base-26 label of the 0-based index
`idx`. -/
def full_label_chars (idx : Nat) : List Char := (fullDigits (idx + 1)).reverse

/-- The names of the `g_presets` registry (`viewer_win32.c` lines 325-333).
The generator functions act only on the vector collection and label
counter (modelled by `VecListState` below); they never touch the preset
index or name, so the preset-navigation state tracks names only. -/
def g_presets : List String :=
  ["Empty", "Basis & Diagonals", "Spokes Circle", "Random Vectors",
   "Projection (a onto b)", "Reflection (i about n)", "Rotations"]

/-- `g_preset_count` (`viewer_win32.c` line 334). -/
def g_preset_count : ℤ := g_presets.length

/-- The preset-navigation state: the globals `g_preset_index` and
`g_preset_name`. -/
structure PresetState where
  index : ℤ
  name : String
deriving DecidableEq, Repr

/-- The initial values of `g_preset_index` and `g_preset_name`
(`viewer_win32.c` lines 335-336). -/
def initialPresetState : PresetState := ⟨0, "Empty"⟩

/-- `preset_apply_index` from `viewer_win32.c` (lines 338-345), restricted
to its effect on index and name (the generator call mutates only the
vector collection). -/
def preset_apply_index (s : PresetState) (idx : ℤ) : PresetState :=
  if g_preset_count = 0 then s
  else
    let i := if idx < 0 then g_preset_count - 1
             else if g_preset_count ≤ idx then 0 else idx
    ⟨i, g_presets.getD i.toNat ""⟩

/-- `preset_next` (`viewer_win32.c` line 346). -/
def preset_next (s : PresetState) : PresetState := preset_apply_index s (s.index + 1)

/-- `preset_prev` (`viewer_win32.c` line 347). -/
def preset_prev (s : PresetState) : PresetState := preset_apply_index s (s.index - 1)

/-- One user-visible preset operation. -/
inductive PresetOp where
  | apply (idx : ℤ)
  | next
  | prev
deriving DecidableEq, Repr

def preset_step (s : PresetState) : PresetOp → PresetState
  | .apply idx => preset_apply_index s idx
  | .next => preset_next s
  | .prev => preset_prev s

def preset_run (s : PresetState) : List PresetOp → PresetState
  | [] => s
  | op :: ops => preset_run (preset_step s op) ops

/-- One entry of the vector collection (`VEntry`, `viewer_win32.c` lines
84-88): a world-space vector, a colour and its label. -/
structure VEntry where
  v : ℚ × ℚ
  color : ℕ
  label : String
deriving DecidableEq, Repr

/-- The observable state of the vector collection together with the
process-wide label counter: `g_vecs` (`VecList`: live entries `data[0..len)`
and the reserved capacity `cap`) and `g_label_counter`.  Stale array slots
past `len` are unobservable and not modelled. -/
structure VecListState where
  entries : List VEntry
  cap : ℕ
  labelCounter : ℕ
deriving DecidableEq, Repr

/-- The capacity chosen by `veclist_reserve` (`viewer_win32.c` lines
98-106): nothing if `want` already fits, otherwise the doubled (or initial
16) capacity, raised to `want` if still short.  A `realloc` failure leaves
the state unchanged and is not modelled. -/
def veclist_reserve (cap want : ℕ) : ℕ :=
  if want ≤ cap then cap
  else
    let newCap := if cap = 0 then 16 else cap * 2
    if newCap < want then want else newCap

/-- `veclist_push` (`viewer_win32.c` lines 107-114): grows the storage if
needed, appends the entry labelled with the current counter value, and
increments the counter. -/
def veclist_push (s : VecListState) (value : ℚ × ℚ) (col : ℕ) : VecListState :=
  { entries := s.entries ++ [⟨value, col, make_label s.labelCounter 8⟩]
    cap := if s.entries.length + 1 > s.cap
      then veclist_reserve s.cap (s.entries.length + 1) else s.cap
    labelCounter := s.labelCounter + 1 }

/-- `veclist_clear` (`viewer_win32.c` line 115): `v->len = 0`. -/
def veclist_clear (s : VecListState) : VecListState := { s with entries := [] }

/-- `reset_list_and_labels` (`viewer_win32.c` lines 256-259): clear plus
`g_label_counter = 0`; every preset generator starts with this. -/
def reset_list_and_labels (s : VecListState) : VecListState :=
  { veclist_clear s with labelCounter := 0 }

/-- The `VK_DELETE` branch of the key handler (`viewer_win32.c` lines
417-420): clears the collection and resets the label counter. -/
def delete_key_handler (s : VecListState) : VecListState :=
  { veclist_clear s with labelCounter := 0 }

/-- 2D float vector of `vector2.h`, modelled over `ℝ`. -/
structure vec2 where
  x : ℝ
  y : ℝ

/-- `vec2_length2` from `vector2.h` (lines 62-65). -/
def vec2_length2 (a : vec2) : ℝ := a.x * a.x + a.y * a.y

/-- `vec2_length` from `vector2.h` (lines 73-76). -/
noncomputable def vec2_length (a : vec2) : ℝ := Real.sqrt (vec2_length2 a)

open Classical in
/-- `vec2_equal` from `vector2.h` (lines 174-182): if both vectors have
length below `eps` they compare equal; otherwise each component is compared
with relative tolerance `eps * max |aᵢ| |bᵢ|`. -/
def vec2_equal (a b : vec2) (eps : ℝ) : Prop :=
  if vec2_length a < eps ∧ vec2_length b < eps then True
  else |a.x - b.x| ≤ eps * max |a.x| |b.x| ∧ |a.y - b.y| ≤ eps * max |a.y| |b.y|

/-- Truncation toward zero of a real, the semantics of a C cast from a
floating value to `int`. -/
noncomputable def realTrunc (x : ℝ) : ℤ := if 0 ≤ x then ⌊x⌋ else ⌈x⌉

/-- `vec2_abs` from `vector2.h` (lines 221-227).  The C code applies `abs` —
the *integer* absolute value (its own doc comment says to use `fabsf`) — to
each float component: the component is implicitly converted to `int`
(truncating toward zero), `abs` is taken, and the `int` result is converted
back to `float`. -/
noncomputable def vec2_abs (a : vec2) : vec2 :=
  ⟨((|realTrunc a.x| : ℤ) : ℝ), ((|realTrunc a.y| : ℤ) : ℝ)⟩

theorem ratTrunc_intCast (n : ℤ) : ratTrunc (n : ℚ) = n := by
  unfold ratTrunc
  split <;> simp

theorem abs_ratTrunc_sub_lt (q : ℚ) : |(ratTrunc q : ℚ) - q| < 1 := by
  unfold ratTrunc
  split
  · rw [abs_sub_lt_iff]
    constructor
    · linarith [Int.floor_le q]
    · linarith [Int.sub_one_lt_floor q]
  · rw [abs_sub_lt_iff]
    constructor
    · linarith [Int.ceil_lt_add_one q]
    · linarith [Int.le_ceil q]

theorem int_log_eq_of_bounds (r : ℚ) (k : ℤ) (hr : 0 < r)
    (h1 : (10:ℚ) ^ k ≤ r) (h2 : r < (10:ℚ) ^ (k + 1)) : Int.log 10 r = k := by
  have ha : k ≤ Int.log 10 r := by
    rw [← Int.zpow_le_iff_le_log (by norm_num) hr]
    exact_mod_cast h1
  have hb : Int.log 10 r < k + 1 := by
    rw [← Int.lt_zpow_iff_log_lt (by norm_num) hr]
    exact_mod_cast h2
  omega

theorem int_log_ratCast (t : ℚ) (ht : 0 < t) :
    Int.log 10 ((t : ℝ)) = Int.log 10 t := by
  have htR : (0:ℝ) < (t : ℝ) := by exact_mod_cast ht
  have h1 : ((10:ℕ):ℚ) ^ Int.log 10 t ≤ t := Int.zpow_log_le_self (by norm_num) ht
  have h2 : t < ((10:ℕ):ℚ) ^ (Int.log 10 t + 1) :=
    Int.lt_zpow_succ_log_self (by norm_num) t
  have ha : Int.log 10 t ≤ Int.log 10 ((t : ℝ)) := by
    rw [← Int.zpow_le_iff_le_log (by norm_num) htR]
    have := (Rat.cast_le (K := ℝ)).mpr h1
    rwa [Rat.cast_zpow, Rat.cast_natCast] at this
  have hb : Int.log 10 ((t : ℝ)) < Int.log 10 t + 1 := by
    rw [← Int.lt_zpow_iff_log_lt (by norm_num) htR]
    have := (Rat.cast_lt (K := ℝ)).mpr h2
    rwa [Rat.cast_zpow, Rat.cast_natCast] at this
  omega

/-- C4: the grid-step planner follows the 1-2-5-10 decade ladder with
`base = 10 ^ ⌊log10 target⌋`, returns `1` for every `target ≤ 0`, and takes
the claimed values on the five sample targets. -/
theorem nice_step_for_scale_spec :
    (∀ t : ℚ, t ≤ 0 → nice_step_for_scale t = 1) ∧
    (∀ t : ℚ, 0 < t →
      nice_step_for_scale t =
        (if t / (10:ℚ) ^ ⌊Real.logb 10 (t : ℝ)⌋ < 3/2 then 1
         else if t / (10:ℚ) ^ ⌊Real.logb 10 (t : ℝ)⌋ < 3 then 2
         else if t / (10:ℚ) ^ ⌊Real.logb 10 (t : ℝ)⌋ < 7 then 5 else 10)
          * (10:ℚ) ^ ⌊Real.logb 10 (t : ℝ)⌋) ∧
    nice_step_for_scale (9/10) = 1 ∧ nice_step_for_scale (9/5) = 2 ∧
    nice_step_for_scale 4 = 5 ∧ nice_step_for_scale 9 = 10 ∧
    nice_step_for_scale 15 = 20 := by
  have hlog : ∀ t : ℚ, 0 < t → ⌊Real.logb 10 (t : ℝ)⌋ = Int.log 10 t := by
    intro t ht
    have h0 : (0:ℝ) ≤ (t : ℝ) := by positivity
    have := Real.floor_logb_natCast (b := 10) (r := (t : ℝ)) h0
    rw [← int_log_ratCast t ht]
    simpa using this
  have hneg : ∀ t : ℚ, t ≤ 0 → nice_step_for_scale t = 1 := by
    intro t ht
    unfold nice_step_for_scale
    rw [if_pos ht]
  have l1 : Int.log 10 ((9:ℚ)/10) = -1 := by
    apply int_log_eq_of_bounds _ _ (by norm_num)
    · rw [show (-1 : ℤ) = -(1:ℕ) by norm_num, zpow_neg, zpow_natCast]
      norm_num
    · norm_num
  have l2 : Int.log 10 ((9:ℚ)/5) = 0 := by
    apply int_log_eq_of_bounds _ _ (by norm_num) <;> norm_num
  have l3 : Int.log 10 (4:ℚ) = 0 := by
    apply int_log_eq_of_bounds _ _ (by norm_num) <;> norm_num
  have l4 : Int.log 10 (9:ℚ) = 0 := by
    apply int_log_eq_of_bounds _ _ (by norm_num) <;> norm_num
  have l5 : Int.log 10 (15:ℚ) = 1 := by
    apply int_log_eq_of_bounds _ _ (by norm_num) <;> norm_num
  refine ⟨hneg, ?_, ?_, ?_, ?_, ?_, ?_⟩
  · intro t ht
    unfold nice_step_for_scale
    rw [if_neg (not_le.mpr ht), hlog t ht]
  · unfold nice_step_for_scale
    rw [if_neg (by norm_num), l1]
    norm_num [zpow_neg]
  · unfold nice_step_for_scale
    rw [if_neg (by norm_num), l2]
    norm_num
  · unfold nice_step_for_scale
    rw [if_neg (by norm_num), l3]
    norm_num
  · unfold nice_step_for_scale
    rw [if_neg (by norm_num), l4]
    norm_num
  · unfold nice_step_for_scale
    rw [if_neg (by norm_num), l5]
    norm_num

/-- Witness for C4: the degenerate branch and the ladder shape at concrete
inputs. -/
theorem nice_step_for_scale_spec_witness :
    nice_step_for_scale (-3) = 1 ∧
    nice_step_for_scale 15 =
      (if (15:ℚ) / (10:ℚ) ^ ⌊Real.logb 10 ((15:ℚ) : ℝ)⌋ < 3/2 then 1
       else if (15:ℚ) / (10:ℚ) ^ ⌊Real.logb 10 ((15:ℚ) : ℝ)⌋ < 3 then 2
       else if (15:ℚ) / (10:ℚ) ^ ⌊Real.logb 10 ((15:ℚ) : ℝ)⌋ < 7 then 5 else 10)
        * (10:ℚ) ^ ⌊Real.logb 10 ((15:ℚ) : ℝ)⌋ :=
  ⟨nice_step_for_scale_spec.1 (-3) (by norm_num),
   nice_step_for_scale_spec.2.1 15 (by norm_num)⟩

/-- C1: for a fixed camera state and client dimensions, `world_to_screen`
inverts `screen_to_world`: the round trip on any screen point is the
identity (over the exact rational model, so the floating-point version
agrees up to rounding; the integer truncation in `world_to_screen` is
applied to an exactly integral value and is lossless). -/
theorem world_to_screen_screen_to_world (cam : Camera) (W H sx sy : ℤ)
    (h : cam.scale ≠ 0) :
    world_to_screen cam W H (screen_to_world cam W H sx sy).1
      (screen_to_world cam W H sx sy).2 = (sx, sy) := by
  unfold world_to_screen screen_to_world
  have hx : (W : ℚ) * (1/2) + cam.panX +
      ((sx : ℚ) - (W : ℚ) * (1/2) - cam.panX) / cam.scale * cam.scale
      = (sx : ℚ) := by
    field_simp
    ring
  have hy : (H : ℚ) * (1/2) + cam.panY -
      ((H : ℚ) * (1/2) + cam.panY - (sy : ℚ)) / cam.scale * cam.scale
      = (sy : ℚ) := by
    field_simp
    ring
  simp only [hx, hy, ratTrunc_intCast]

/-- Witness for C1 at a concrete camera and screen point. -/
theorem world_to_screen_screen_to_world_witness :
    world_to_screen ⟨80, 3, -5⟩ 800 600
      (screen_to_world ⟨80, 3, -5⟩ 800 600 123 456).1
      (screen_to_world ⟨80, 3, -5⟩ 800 600 123 456).2 = (123, 456) :=
  world_to_screen_screen_to_world ⟨80, 3, -5⟩ 800 600 123 456 (by norm_num)

theorem clampf_bounds (x a b : ℚ) (hab : a ≤ b) :
    a ≤ clampf x a b ∧ clampf x a b ≤ b := by
  unfold clampf
  split_ifs <;> constructor <;> linarith

/-- C2: zoom-at-cursor anchoring.  After the zoom, the world point under the
anchor screen point `(mx, my)` differs from the one before the zoom by less
than one pixel's worth of world units (`1 / scale`) in each coordinate —
the only error source being the integer truncation of `world_to_screen`
inside the handler (over exact arithmetic the anchoring would be exact). -/
theorem handle_zoom_at_cursor_anchors (cam cam2 : Camera)
    (W H wheelDelta mx my : ℤ)
    (h2 : cam2 = handle_zoom_at_cursor cam W H wheelDelta mx my) :
    |(screen_to_world cam2 W H mx my).1 -
        (screen_to_world cam W H mx my).1| < 1 / cam2.scale ∧
    |(screen_to_world cam2 W H mx my).2 -
        (screen_to_world cam W H mx my).2| < 1 / cam2.scale := by
  subst h2
  unfold handle_zoom_at_cursor
  simp only [screen_to_world, world_to_screen]
  set s2 := clampf (cam.scale * (if 0 < wheelDelta then (11:ℚ)/10 else 10/11))
    10 2000 with hs2def
  have h10 : (10:ℚ) ≤ s2 := (clampf_bounds _ 10 2000 (by norm_num)).1
  have hpos : (0:ℚ) < s2 := by linarith
  constructor
  · set w := ((mx:ℚ) - (W:ℚ) * (1/2) - cam.panX) / cam.scale with hw
    set T := (W:ℚ) * (1/2) + cam.panX + w * s2 with hT
    have hkey : ((mx:ℚ) - (W:ℚ) * (1/2) -
        (cam.panX + ((mx - ratTrunc T : ℤ) : ℚ))) / s2 - w
        = ((ratTrunc T : ℚ) - T) / s2 := by
      rw [hT]
      push_cast
      field_simp
      ring
    rw [hkey, abs_div, abs_of_pos hpos]
    exact (div_lt_div_iff_of_pos_right hpos).mpr (abs_ratTrunc_sub_lt T)
  · set w := ((H:ℚ) * (1/2) + cam.panY - (my:ℚ)) / cam.scale with hw
    set T := (H:ℚ) * (1/2) + cam.panY - w * s2 with hT
    have hkey : ((H:ℚ) * (1/2) +
        (cam.panY + ((my - ratTrunc T : ℤ) : ℚ)) - (my:ℚ)) / s2 - w
        = (T - (ratTrunc T : ℚ)) / s2 := by
      rw [hT]
      push_cast
      field_simp
      ring
    rw [hkey, abs_div, abs_of_pos hpos]
    exact (div_lt_div_iff_of_pos_right hpos).mpr
      (by simpa [abs_sub_comm] using abs_ratTrunc_sub_lt T)

/-- Witness for C2 at a concrete camera, wheel delta and anchor point. -/
theorem handle_zoom_at_cursor_anchors_witness :
    |(screen_to_world (handle_zoom_at_cursor ⟨80, 3, -5⟩ 800 600 120 123 456)
        800 600 123 456).1 - (screen_to_world ⟨80, 3, -5⟩ 800 600 123 456).1|
      < 1 / (handle_zoom_at_cursor ⟨80, 3, -5⟩ 800 600 120 123 456).scale ∧
    |(screen_to_world (handle_zoom_at_cursor ⟨80, 3, -5⟩ 800 600 120 123 456)
        800 600 123 456).2 - (screen_to_world ⟨80, 3, -5⟩ 800 600 123 456).2|
      < 1 / (handle_zoom_at_cursor ⟨80, 3, -5⟩ 800 600 120 123 456).scale :=
  handle_zoom_at_cursor_anchors ⟨80, 3, -5⟩ _ 800 600 120 123 456 rfl

/-- C3: the label generator realizes bijective base-26 on 0-based indices. -/
theorem make_label_values :
    make_label 0 8 = "a" ∧ make_label 25 8 = "z" ∧ make_label 26 8 = "aa" ∧
    make_label 701 8 = "zz" ∧ make_label 702 8 = "aaa" := by
  decide

theorem fullDigits_length_le (k : Nat) :
    ∀ x : Nat, x < 26 ^ k → (fullDigits x).length ≤ k := by
  induction k with
  | zero =>
    intro x hx
    have hx0 : x = 0 := by simpa using hx
    subst hx0
    rw [fullDigits]
    simp
  | succ k ih =>
    intro x hx
    rw [fullDigits]
    split_ifs with h
    · simp
    · simp only [List.length_cons]
      have hlt : (x - 1) / 26 < 26 ^ k := by
        rw [Nat.div_lt_iff_lt_mul (by norm_num : 0 < 26)]
        have hp : 26 ^ (k + 1) = 26 ^ k * 26 := pow_succ 26 k
        omega
      have := ih _ hlt
      omega

theorem labelDigitsAux_eq_fullDigits (fuel : Nat) :
    ∀ x : Nat, (fullDigits x).length ≤ fuel → labelDigitsAux x fuel = fullDigits x := by
  induction fuel with
  | zero =>
    intro x h
    have : fullDigits x = [] := List.length_eq_zero.mp (Nat.le_zero.mp h)
    rw [this]
    rfl
  | succ fuel ih =>
    intro x h
    by_cases hx : x = 0
    · subst hx
      rw [fullDigits]
      simp [labelDigitsAux]
    · rw [fullDigits] at h ⊢
      rw [dif_neg hx] at h ⊢
      simp only [List.length_cons] at h
      simp only [labelDigitsAux, if_neg hx]
      rw [ih _ (by omega)]

/-- C9: for every `size_t` index, the stored label is the truncation of the
full bijective base-26 representation to its 7 most-significant letters,
and it always fits (with its terminator) in the 8-byte `label` buffer of
`VEntry`. -/
theorem make_label_truncation (idx : Nat) (h : idx < 2 ^ 64) :
    make_label_chars idx 8 = (full_label_chars idx).take 7 ∧
    (make_label idx 8).length ≤ 7 := by
  have hx : idx + 1 < 26 ^ 15 := by
    have h2 : (2:ℕ) ^ 64 < 26 ^ 15 := by norm_num
    omega
  have hlen : (fullDigits (idx + 1)).length ≤ 15 := fullDigits_length_le 15 _ hx
  have heq : labelDigits (idx + 1) = fullDigits (idx + 1) :=
    labelDigitsAux_eq_fullDigits 32 _ (le_trans hlen (by norm_num))
  have hmain : make_label_chars idx 8 = (full_label_chars idx).take 7 := by
    have heq32 : labelDigitsAux (idx + 1) 32 = fullDigits (idx + 1) := heq
    simp only [make_label_chars, labelDigits, full_label_chars, heq32]
    norm_num
    rw [← List.length_reverse (fullDigits (idx + 1))]
    rw [Nat.min_comm]
  refine ⟨hmain, ?_⟩
  have hstr : (make_label idx 8).length = (make_label_chars idx 8).length := rfl
  rw [hstr, hmain]
  have := List.length_take 7 (full_label_chars idx)
  omega

/-- Witness for C9 at an index whose full label has 8 letters and is
actually truncated. -/
theorem make_label_truncation_witness :
    (2 ^ 34 : Nat) < 2 ^ 64 ∧
    (make_label_chars (2 ^ 34) 8 = (full_label_chars (2 ^ 34)).take 7 ∧
      (make_label (2 ^ 34) 8).length ≤ 7) :=
  ⟨by norm_num, make_label_truncation (2 ^ 34) (by norm_num)⟩

/-- C5 counterexample: preset-index normalization is NOT true modulo.  With
the 7-entry registry, applying index `-2` lands on index `6` (the code
snaps every negative index to the last entry), while `-2 mod 7 = 5`. -/
theorem preset_apply_index_not_modulo :
    (preset_apply_index initialPresetState (-2)).index = 6 ∧
    (-2 : ℤ) % (g_presets.length : ℤ) = 5 ∧
    ¬((preset_apply_index initialPresetState (-2)).index
        = (-2 : ℤ) % (g_presets.length : ℤ)) := by
  decide

/-- C5 (amended): `preset_apply_index` wraps by snapping — every negative
index goes to the last entry `N-1` and every index `≥ N` goes to `0`
(true modulo only when the input is within one step of the valid range);
in-range indices are kept; in particular `prev()` from index `0` lands on
`N-1` and `next()` from `N-1` lands on `0`. -/
theorem preset_apply_index_wraps (s : PresetState) (idx : ℤ) :
    (idx < 0 → (preset_apply_index s idx).index = (g_presets.length : ℤ) - 1) ∧
    ((g_presets.length : ℤ) ≤ idx → (preset_apply_index s idx).index = 0) ∧
    (0 ≤ idx → idx < (g_presets.length : ℤ) →
      (preset_apply_index s idx).index = idx) ∧
    (s.index = 0 → (preset_prev s).index = (g_presets.length : ℤ) - 1) ∧
    (s.index = (g_presets.length : ℤ) - 1 → (preset_next s).index = 0) := by
  have happly : ∀ j : ℤ,
      (j < 0 → (preset_apply_index s j).index = (g_presets.length : ℤ) - 1) ∧
      ((g_presets.length : ℤ) ≤ j → (preset_apply_index s j).index = 0) ∧
      (0 ≤ j → j < (g_presets.length : ℤ) →
        (preset_apply_index s j).index = j) := by
    intro j
    unfold preset_apply_index g_preset_count
    rw [if_neg (by decide)]
    refine ⟨?_, ?_, ?_⟩ <;> intros <;> dsimp only <;> split_ifs <;>
      first | rfl | omega
  refine ⟨(happly idx).1, (happly idx).2.1, (happly idx).2.2, ?_, ?_⟩
  · intro h0
    unfold preset_prev
    exact (happly (s.index - 1)).1 (by omega)
  · intro hN
    unfold preset_next
    exact (happly (s.index + 1)).2.1 (by omega)

/-- Witness for the amended C5 at concrete indices. -/
theorem preset_apply_index_wraps_witness :
    (preset_apply_index initialPresetState (-2)).index
      = (g_presets.length : ℤ) - 1 ∧
    (preset_apply_index initialPresetState 9).index = 0 ∧
    (preset_apply_index initialPresetState 3).index = 3 ∧
    (preset_prev initialPresetState).index = (g_presets.length : ℤ) - 1 ∧
    (preset_next ⟨(g_presets.length : ℤ) - 1, "Rotations"⟩).index = 0 :=
  ⟨(preset_apply_index_wraps initialPresetState (-2)).1 (by norm_num),
   (preset_apply_index_wraps initialPresetState 9).2.1 (by decide),
   (preset_apply_index_wraps initialPresetState 3).2.2.1 (by norm_num) (by decide),
   (preset_apply_index_wraps initialPresetState 0).2.2.2.1 rfl,
   (preset_apply_index_wraps ⟨(g_presets.length : ℤ) - 1, "Rotations"⟩ 0).2.2.2.2 rfl⟩

/-- C10: after any sequence of preset operations from the initial state,
the index stays in `[0, count-1]` and the recorded name is the registry
entry at the current index. -/
theorem preset_run_invariant (ops : List PresetOp) :
    0 ≤ (preset_run initialPresetState ops).index ∧
    (preset_run initialPresetState ops).index < (g_presets.length : ℤ) ∧
    (preset_run initialPresetState ops).name
      = g_presets.getD (preset_run initialPresetState ops).index.toNat "" := by
  have happly : ∀ (s : PresetState) (idx : ℤ),
      0 ≤ (preset_apply_index s idx).index ∧
      (preset_apply_index s idx).index < (g_presets.length : ℤ) ∧
      (preset_apply_index s idx).name
        = g_presets.getD (preset_apply_index s idx).index.toNat "" := by
    intro s idx
    unfold preset_apply_index g_preset_count
    rw [if_neg (by decide)]
    have hlen : g_presets.length = 7 := rfl
    dsimp only
    split_ifs <;> refine ⟨by omega, by omega, rfl⟩
  have hrun : ∀ (ops : List PresetOp) (s : PresetState),
      0 ≤ s.index ∧ s.index < (g_presets.length : ℤ) ∧
        s.name = g_presets.getD s.index.toNat "" →
      0 ≤ (preset_run s ops).index ∧
      (preset_run s ops).index < (g_presets.length : ℤ) ∧
      (preset_run s ops).name
        = g_presets.getD (preset_run s ops).index.toNat "" := by
    intro ops
    induction ops with
    | nil => intro s hs; exact hs
    | cons op ops ih =>
      intro s _
      cases op with
      | apply idx => exact ih _ (happly s idx)
      | next => exact ih _ (happly s _)
      | prev => exact ih _ (happly s _)
  exact hrun ops initialPresetState (by decide)

/-- C8: `veclist_clear` zeroes the length but leaves the reserved capacity
and the process-wide label counter untouched; the counter is reset (to `0`)
only by the scene-reset operations — the delete-key handler and
`reset_list_and_labels`, which the preset generators call. -/
theorem veclist_clear_spec (s : VecListState) :
    (veclist_clear s).entries.length = 0 ∧
    (veclist_clear s).cap = s.cap ∧
    (veclist_clear s).labelCounter = s.labelCounter ∧
    (reset_list_and_labels s).labelCounter = 0 ∧
    (delete_key_handler s).labelCounter = 0 := by
  unfold veclist_clear reset_list_and_labels delete_key_handler
  exact ⟨rfl, rfl, rfl, rfl, rfl⟩

/-- C6: `vec2_equal` returns true iff both vectors have length `< eps` or
both components are within the relative tolerance; consequently it is
reflexive for every nonnegative tolerance and `(0,0)` equals `(0,0)` for
every `eps > 0`. -/
theorem vec2_equal_spec :
    (∀ (a b : vec2) (eps : ℝ), vec2_equal a b eps ↔
      ((vec2_length a < eps ∧ vec2_length b < eps) ∨
        (|a.x - b.x| ≤ eps * max |a.x| |b.x| ∧
         |a.y - b.y| ≤ eps * max |a.y| |b.y|))) ∧
    (∀ (a : vec2) (eps : ℝ), 0 ≤ eps → vec2_equal a a eps) ∧
    (∀ eps : ℝ, 0 < eps → vec2_equal ⟨0, 0⟩ ⟨0, 0⟩ eps) := by
  have hiff : ∀ (a b : vec2) (eps : ℝ), vec2_equal a b eps ↔
      ((vec2_length a < eps ∧ vec2_length b < eps) ∨
        (|a.x - b.x| ≤ eps * max |a.x| |b.x| ∧
         |a.y - b.y| ≤ eps * max |a.y| |b.y|)) := by
    intro a b eps
    unfold vec2_equal
    split_ifs with h <;> simp [h]
  refine ⟨hiff, ?_, ?_⟩
  · intro a eps heps
    rw [hiff]
    right
    constructor
    · rw [sub_self, abs_zero]
      exact mul_nonneg heps (le_trans (abs_nonneg _) (le_max_left _ _))
    · rw [sub_self, abs_zero]
      exact mul_nonneg heps (le_trans (abs_nonneg _) (le_max_left _ _))
  · intro eps heps
    rw [hiff]
    left
    have hzero : vec2_length ⟨0, 0⟩ = 0 := by
      unfold vec2_length vec2_length2
      norm_num
    rw [hzero]
    exact ⟨heps, heps⟩

/-- Witness for C6 at concrete vectors and tolerances. -/
theorem vec2_equal_spec_witness :
    (vec2_equal ⟨1, 2⟩ ⟨3, 4⟩ 5 ↔
      ((vec2_length ⟨1, 2⟩ < 5 ∧ vec2_length ⟨3, 4⟩ < 5) ∨
        (|(1:ℝ) - 3| ≤ 5 * max |(1:ℝ)| |(3:ℝ)| ∧
         |(2:ℝ) - 4| ≤ 5 * max |(2:ℝ)| |(4:ℝ)|))) ∧
    ((0:ℝ) ≤ 1 ∧ vec2_equal ⟨1, 2⟩ ⟨1, 2⟩ 1) ∧
    ((0:ℝ) < 1 ∧ vec2_equal ⟨0, 0⟩ ⟨0, 0⟩ 1) :=
  ⟨vec2_equal_spec.1 ⟨1, 2⟩ ⟨3, 4⟩ 5,
   ⟨by norm_num, vec2_equal_spec.2.1 ⟨1, 2⟩ 1 (by norm_num)⟩,
   ⟨by norm_num, vec2_equal_spec.2.2 1 (by norm_num)⟩⟩

/-- C7 (code bug): `vec2_abs` does not return `(|v.x|, |v.y|)` — because it
calls the integer `abs` on float components, it truncates them first.  At
`v = (1.5, -2.7)` the code yields `(1, 2)`, not `(1.5, 2.7)`. -/
theorem vec2_abs_truncates :
    vec2_abs ⟨3/2, -27/10⟩ = vec2.mk 1 2 ∧
    (vec2_abs ⟨3/2, -27/10⟩).x ≠ |(3:ℝ)/2| := by
  have hf : realTrunc ((3:ℝ)/2) = 1 := by
    unfold realTrunc
    rw [if_pos (by norm_num), Int.floor_eq_iff]
    norm_num
  have hc : realTrunc (-27/10 : ℝ) = -2 := by
    unfold realTrunc
    rw [if_neg (by norm_num), Int.ceil_eq_iff]
    norm_num
  have habs : vec2_abs ⟨3/2, -27/10⟩ = vec2.mk 1 2 := by
    unfold vec2_abs
    dsimp only
    rw [hf, hc]
    norm_num
  refine ⟨habs, ?_⟩
  rw [habs, abs_of_pos (by norm_num : (0:ℝ) < 3/2)]
  norm_num
